import Mathlib

/-
Verification of the nuuk Nock-style reduction engine (src/main.rs).

The Rust source is shallowly embedded:
  * `Noun` mirrors enum NounInner { Atom(Atom), Cell(Cell) }; atom payloads
    are u64 in the source, modelled as Nat (the source invariant is that every
    atom value is < 2^64, and the embedding makes every overflow explicit).
  * Rust panics (panic!, todo!, and debug-build arithmetic overflow checks)
    abort the computation; they are modelled as `Except Err` error results,
    one `Err` constructor per distinct panic site kind.
  * The unbounded recursion of fn nock is modelled with an explicit fuel
    parameter; `Err.timeout` is the out-of-fuel marker (a model artifact, not
    a panic of the source).
  * Rc sharing has no observable effect on values; Rc::ptr_eq(a, b) implies
    structural equality of a and b, so the ptr_eq fast path of fn noun_eq is
    absorbed by the structural queue walk it short-circuits.
-/

/-- Binary-tree value: enum NounInner (src/main.rs:79-83).  Atom payload is a
u64 in the source. -/
inductive Noun : Type where
  | atom : Nat → Noun
  | cell : Noun → Noun → Noun
deriving DecidableEq, Repr

/-- Panic/abort outcomes of the source, plus the fuel marker `timeout`. -/
inductive Err : Type where
  /-- fn nock: the input noun is not a (subject . formula) cell (todo!(), src/main.rs:127). -/
  | notAPair : Err
  /-- fn nock: the formula is not a cell (panic, src/main.rs:139), or an
  operand does not match the shape its opcode requires (panic!() in the
  operator bodies). -/
  | malformedFormula : Err
  /-- fn addr: "address is not an atom" (src/main.rs:162). -/
  | addrNotAtom : Err
  /-- fn addr: "address can't be zero" (src/main.rs:166). -/
  | invalidAddress : Err
  /-- fn addr::aux / fn rplc_at: "expected a cell" (src/main.rs:184, 353). -/
  | notACell : Err
  /-- fn incr: the reduced operand is a cell (panic, src/main.rs:228). -/
  | notAnAtom : Err
  /-- Atom::incr: 1 + atom overflows u64 (debug-build overflow abort,
  src/main.rs:41). -/
  | overflow : Err
  /-- fn rplc_at with path 0: `64 - path.leading_zeros() - 1` underflows
  (debug-build overflow abort, src/main.rs:343). -/
  | subUnderflow : Err
  /-- fn nock: todo!("hint") for opcode 11 and todo!("atom = ...") for any
  opcode above 11 (src/main.rs:154-155). -/
  | unsupported : Err
  /-- Out of fuel: model artifact standing for a still-running computation. -/
  | timeout : Err
deriving DecidableEq, Repr

/-- Atom::incr (src/main.rs:40-42): 1 + atom on u64; a debug build aborts
when the sum does not fit in 64 bits. -/
def Atom.incr (a : Nat) : Except Err Nat :=
  if 1 + a < 2 ^ 64 then .ok (1 + a) else .error .overflow

/-- matches!(&*self.0, NounInner::Cell(..)) (src/main.rs:97-99). -/
def Noun.is_cell : Noun → Bool
  | .atom _ => false
  | .cell _ _ => true

/-- Size measure used to justify termination of the noun_eq work list. -/
def nounSize : Noun → Nat
  | .atom _ => 1
  | .cell a b => nounSize a + nounSize b + 1

/-- Total size of the pairs still queued in the noun_eq work list. -/
def pairsSize (l : List (Noun × Noun)) : Nat :=
  (l.map fun p => nounSize p.1 + nounSize p.2).sum

/-- The FIFO work-list loop of fn noun_eq (src/main.rs:107-121): pop a pair
from the front; equal atoms continue, two cells enqueue their heads and tails
at the back, anything else is false; an empty queue yields true. -/
def nounEqGo : List (Noun × Noun) → Bool
  | [] => true
  | (.atom a, .atom b) :: rest => if a = b then nounEqGo rest else false
  | (.cell a1 a2, .cell b1 b2) :: rest =>
      nounEqGo (rest ++ [(a1, b1), (a2, b2)])
  | (.atom _, .cell _ _) :: _ => false
  | (.cell _ _, .atom _) :: _ => false
termination_by l => pairsSize l
decreasing_by
  all_goals (simp [pairsSize, nounSize]; try omega)

/-- fn noun_eq (src/main.rs:102-122).  The Rc::ptr_eq fast path only returns
true when the two nouns are structurally equal, which the queue walk also
detects, so it is not modelled separately. -/
def noun_eq (a b : Noun) : Bool :=
  nounEqGo [(a, b)]

/-- Fuel-bounded `64 - n.leading_zeros() - 1`: for 1 ≤ n < 2^fuel,
`log2via fuel n` is the position of the highest set bit of n.  The source
computes this on a u64 (src/main.rs:176, 343), so fuel is instantiated at 64. -/
def log2via : Nat → Nat → Nat
  | 0, _ => 0
  | fuel + 1, n => if 2 ≤ n then log2via fuel (n / 2) + 1 else 0

/-- The descent loop fn addr::aux (src/main.rs:175-199): while the cursor is
nonzero, require a cell, decrement the cursor, and descend to the head when
bit `cursor` of the path is 0, to the tail when it is 1
(`(path & (1 << cursor)) >> cursor` = `path / 2^cursor % 2`). -/
def aux : Nat → Nat → Noun → Except Err Noun
  | 0, _, subj => .ok subj
  | _ + 1, _, .atom _ => .error .notACell
  | cursor + 1, path, .cell car cdr =>
      if path / 2 ^ cursor % 2 = 0 then aux cursor path car
      else aux cursor path cdr

/-- fn addr (src/main.rs:160-202): the operand must be an atom, must be
nonzero, and the walk starts at cursor `64 - path.leading_zeros() - 1`. -/
def addr (subj : Noun) (a : Noun) : Except Err Noun :=
  match a with
  | .cell _ _ => .error .addrNotAtom
  | .atom n =>
      if n = 0 then .error .invalidAddress
      else aux (log2via 64 n) n subj

/-- read(path, root) of the spec: fn addr applied to a path atom. -/
def read (path : Nat) (root : Noun) : Except Err Noun :=
  addr root (.atom path)

/-- The descent loop of fn rplc_at (src/main.rs:348-368): walk like addr::aux
but record a frame (bit, car, cdr) for each step; the Vec stack is modelled
with its top at the list head (push = cons, pop = uncons). -/
def rplcWalk : Nat → Nat → Noun → List (Nat × Noun × Noun) →
    Except Err (List (Nat × Noun × Noun) × Noun)
  | 0, _, current, stack => .ok (stack, current)
  | _ + 1, _, .atom _, _ => .error .notACell
  | cursor + 1, path, .cell car cdr, stack =>
      let bit := path / 2 ^ cursor % 2
      rplcWalk cursor path (if bit = 0 then car else cdr)
        ((bit, car, cdr) :: stack)

/-- The rebuild loop of fn rplc_at (src/main.rs:370-378): pop frames and wrap
the running result on the side recorded by the frame's bit. -/
def rplcRebuild : Noun → List (Nat × Noun × Noun) → Noun
  | result, [] => result
  | result, (bit, car, cdr) :: stack =>
      rplcRebuild (if bit = 0 then .cell result cdr else .cell car result) stack

/-- fn rplc_at (src/main.rs:342-381).  With path 0 the cursor computation
`64 - path.leading_zeros() - 1` underflows before the loop starts (debug-build
abort); there is no zero-address check. -/
def rplc_at (path : Nat) (new_val : Noun) (target : Noun) : Except Err Noun :=
  if path = 0 then .error .subUnderflow
  else
    match rplcWalk (log2via 64 path) path target [] with
    | .ok (stack, _) => .ok (rplcRebuild new_val stack)
    | .error e => .error e

/-- Recursive restatement of rplc_at's walk-then-rebuild loop, used in proofs;
`walk_ok_go`, `walk_error_go` and `rplc_at_go` show it computes the same
value. -/
def rplcGo : Nat → Nat → Noun → Noun → Except Err Noun
  | 0, _, new_val, _ => .ok new_val
  | _ + 1, _, _, .atom _ => .error .notACell
  | cursor + 1, path, new_val, .cell car cdr =>
      if path / 2 ^ cursor % 2 = 0 then
        (rplcGo cursor path new_val car).map fun r => .cell r cdr
      else
        (rplcGo cursor path new_val cdr).map fun r => .cell car r

/-- fn idty (src/main.rs:205-207): opcode 1 returns its operand verbatim. -/
def idty (noun : Noun) : Noun :=
  noun

/-- fn eval (src/main.rs:210-220): opcode 2.  `recur` is the nested call to
fn nock; the operand must be a cell (B . C). -/
def eval (recur : Noun → Except Err Noun) (subj form : Noun) : Except Err Noun :=
  match form with
  | .cell b c =>
      Except.bind (recur (.cell subj b)) fun evaled_b =>
      Except.bind (recur (.cell subj c)) fun evaled_c =>
      recur (.cell evaled_b evaled_c)
  | .atom _ => .error .malformedFormula

/-- fn incr (src/main.rs:223-230): opcode 4. -/
def incr (recur : Noun → Except Err Noun) (subj form : Noun) : Except Err Noun :=
  Except.bind (recur (.cell subj form)) fun prod =>
  match prod with
  | .atom a =>
      match Atom.incr a with
      | .ok n => .ok (.atom n)
      | .error e => .error e
  | .cell _ _ => .error .notAnAtom

/-- fn eqal (src/main.rs:233-243): opcode 5. -/
def eqal (recur : Noun → Except Err Noun) (subj form : Noun) : Except Err Noun :=
  match form with
  | .cell b c =>
      Except.bind (recur (.cell subj b)) fun evaled_b =>
      Except.bind (recur (.cell subj c)) fun evaled_c =>
      .ok (.atom (if noun_eq evaled_b evaled_c then 0 else 1))
  | .atom _ => .error .malformedFormula

/-- fn cell (src/main.rs:246-249): opcode 3. -/
def cell (recur : Noun → Except Err Noun) (subj form : Noun) : Except Err Noun :=
  Except.bind (recur (.cell subj form)) fun prod =>
  .ok (.atom (if prod.is_cell then 0 else 1))

/-- fn brch (src/main.rs:252-279): opcode 6, built by rewriting to the
increment/address/eval primitives: increment the reduced test twice, address
the result into (2 . 3), address that into (C . D), then reduce the selected
branch against the original subject. -/
def brch (recur : Noun → Except Err Noun) (subj form : Noun) : Except Err Noun :=
  match form with
  | .cell b (.cell c d) =>
      Except.bind
        (recur (.cell subj
          (.cell (.atom 4) (.cell (.atom 4) b)))) fun evaled_cond =>
      Except.bind
        (recur (.cell (.cell (.atom 2) (.atom 3))
          (.cell (.atom 0) evaled_cond))) fun addr_ =>
      Except.bind
        (recur (.cell (.cell c d) (.cell (.atom 0) addr_))) fun form2 =>
      recur (.cell subj form2)
  | _ => .error .malformedFormula

/-- fn cmps (src/main.rs:282-291): opcode 7. -/
def cmps (recur : Noun → Except Err Noun) (subj form : Noun) : Except Err Noun :=
  match form with
  | .cell b c =>
      Except.bind (recur (.cell subj b)) fun evaled_b =>
      recur (.cell evaled_b c)
  | .atom _ => .error .malformedFormula

/-- fn extn (src/main.rs:294-304): opcode 8. -/
def extn (recur : Noun → Except Err Noun) (subj form : Noun) : Except Err Noun :=
  match form with
  | .cell b c =>
      Except.bind (recur (.cell subj b)) fun evaled_b =>
      recur (.cell (.cell evaled_b subj) c)
  | .atom _ => .error .malformedFormula

/-- fn invk (src/main.rs:307-322): opcode 9. -/
def invk (recur : Noun → Except Err Noun) (subj form : Noun) : Except Err Noun :=
  match form with
  | .cell b c =>
      Except.bind (recur (.cell subj c)) fun core =>
      recur (.cell core
        (.cell (.atom 2)
          (.cell (.cell (.atom 0) (.atom 1)) (.cell (.atom 0) b))))
  | .atom _ => .error .malformedFormula

/-- fn rplc (src/main.rs:325-340): opcode 10.  The path atom B is used
literally; C and D are reduced against the subject. -/
def rplc (recur : Noun → Except Err Noun) (subj form : Noun) : Except Err Noun :=
  match form with
  | .cell (.cell (.atom b) c) d =>
      Except.bind (recur (.cell subj c)) fun evaled_c =>
      Except.bind (recur (.cell subj d)) fun evaled_d =>
      rplc_at b evaled_c evaled_d
  | _ => .error .malformedFormula

/-- fn nock (src/main.rs:124-157) with explicit fuel: the input must be a
(subject . formula) cell and the formula a cell; a cell-headed formula
distributes over both halves (autocons); an atomic head dispatches on the
opcode, with nested nock calls running at one less fuel. -/
def nock : Nat → Noun → Except Err Noun
  | 0, _ => .error .timeout
  | _ + 1, .atom _ => .error .notAPair
  | _ + 1, .cell _ (.atom _) => .error .malformedFormula
  | fuel + 1, .cell subj (.cell (.cell b_ c) d) =>
      Except.bind (nock fuel (.cell subj (.cell b_ c))) fun x =>
      Except.bind (nock fuel (.cell subj d)) fun y =>
      .ok (.cell x y)
  | _ + 1, .cell subj (.cell (.atom 0) b) => addr subj b
  | _ + 1, .cell _ (.cell (.atom 1) b) => .ok (idty b)
  | fuel + 1, .cell subj (.cell (.atom 2) b) =>
      eval (fun m => nock fuel m) subj b
  | fuel + 1, .cell subj (.cell (.atom 3) b) =>
      cell (fun m => nock fuel m) subj b
  | fuel + 1, .cell subj (.cell (.atom 4) b) =>
      incr (fun m => nock fuel m) subj b
  | fuel + 1, .cell subj (.cell (.atom 5) b) =>
      eqal (fun m => nock fuel m) subj b
  | fuel + 1, .cell subj (.cell (.atom 6) b) =>
      brch (fun m => nock fuel m) subj b
  | fuel + 1, .cell subj (.cell (.atom 7) b) =>
      cmps (fun m => nock fuel m) subj b
  | fuel + 1, .cell subj (.cell (.atom 8) b) =>
      extn (fun m => nock fuel m) subj b
  | fuel + 1, .cell subj (.cell (.atom 9) b) =>
      invk (fun m => nock fuel m) subj b
  | fuel + 1, .cell subj (.cell (.atom 10) b) =>
      rplc (fun m => nock fuel m) subj b
  | _ + 1, .cell _ (.cell (.atom 11) _) => .error .unsupported
  | _ + 1, .cell _ (.cell (.atom _) _) => .error .unsupported

deriving instance DecidableEq for Except

theorem ok_bind {α β : Type} (x : α) (f : α → Except Err β) :
    Except.bind (.ok x) f = f x := rfl

theorem error_bind {α β : Type} (e : Err) (f : α → Except Err β) :
    Except.bind (.error e) f = (.error e : Except Err β) := rfl

/-- Unfolding lemma: nock with no fuel left. -/
theorem nock_fuel_zero (n : Noun) : nock 0 n = .error .timeout := rfl

/-- Unfolding lemma: pair-distribution (autocons) case of fn nock. -/
theorem nock_autocons (f : Nat) (s b c d : Noun) :
    nock (f + 1) (.cell s (.cell (.cell b c) d)) =
      Except.bind (nock f (.cell s (.cell b c))) fun x =>
      Except.bind (nock f (.cell s d)) fun y =>
      .ok (.cell x y) := rfl

/-- Unfolding lemma: opcode 0 dispatches to fn addr. -/
theorem nock_addr (f : Nat) (s b : Noun) :
    nock (f + 1) (.cell s (.cell (.atom 0) b)) = addr s b := rfl

/-- Unfolding lemma: opcode 1 dispatches to fn idty. -/
theorem nock_idty (f : Nat) (s b : Noun) :
    nock (f + 1) (.cell s (.cell (.atom 1) b)) = .ok (idty b) := rfl

/-- Unfolding lemma: opcode 2 dispatches to fn eval. -/
theorem nock_eval (f : Nat) (s b : Noun) :
    nock (f + 1) (.cell s (.cell (.atom 2) b)) =
      eval (fun m => nock f m) s b := rfl

/-- Unfolding lemma: opcode 3 dispatches to fn cell. -/
theorem nock_cell (f : Nat) (s b : Noun) :
    nock (f + 1) (.cell s (.cell (.atom 3) b)) =
      cell (fun m => nock f m) s b := rfl

/-- Unfolding lemma: opcode 4 dispatches to fn incr. -/
theorem nock_incr (f : Nat) (s b : Noun) :
    nock (f + 1) (.cell s (.cell (.atom 4) b)) =
      incr (fun m => nock f m) s b := rfl

/-- Unfolding lemma: opcode 5 dispatches to fn eqal. -/
theorem nock_eqal (f : Nat) (s b : Noun) :
    nock (f + 1) (.cell s (.cell (.atom 5) b)) =
      eqal (fun m => nock f m) s b := rfl

/-- Unfolding lemma: opcode 6 dispatches to fn brch. -/
theorem nock_brch (f : Nat) (s b : Noun) :
    nock (f + 1) (.cell s (.cell (.atom 6) b)) =
      brch (fun m => nock f m) s b := rfl

/-- Unfolding lemma: opcode 7 dispatches to fn cmps. -/
theorem nock_cmps (f : Nat) (s b : Noun) :
    nock (f + 1) (.cell s (.cell (.atom 7) b)) =
      cmps (fun m => nock f m) s b := rfl

/-- Unfolding lemma: opcode 8 dispatches to fn extn. -/
theorem nock_extn (f : Nat) (s b : Noun) :
    nock (f + 1) (.cell s (.cell (.atom 8) b)) =
      extn (fun m => nock f m) s b := rfl

/-- Unfolding lemma: opcode 9 dispatches to fn invk. -/
theorem nock_invk (f : Nat) (s b : Noun) :
    nock (f + 1) (.cell s (.cell (.atom 9) b)) =
      invk (fun m => nock f m) s b := rfl

/-- Unfolding lemma: opcode 10 dispatches to fn rplc. -/
theorem nock_rplc (f : Nat) (s b : Noun) :
    nock (f + 1) (.cell s (.cell (.atom 10) b)) =
      rplc (fun m => nock f m) s b := rfl

/-- Unfolding lemma: opcode 11 hits todo!("hint"). -/
theorem nock_hint (f : Nat) (s b : Noun) :
    nock (f + 1) (.cell s (.cell (.atom 11) b)) = .error .unsupported := rfl

/-- Unfolding lemma: any opcode above 11 hits the catch-all todo!. -/
theorem nock_unknown (f k : Nat) (s b : Noun) :
    nock (f + 1) (.cell s (.cell (.atom (k + 12)) b)) =
      .error .unsupported := rfl

/-- Unfolding lemma for log2via at positive fuel. -/
theorem log2via_succ (f n : Nat) :
    log2via (f + 1) n = if 2 ≤ n then log2via f (n / 2) + 1 else 0 := rfl

/-- Once the fuel bound dominates the argument, log2via no longer depends on
the fuel. -/
theorem log2via_stable : ∀ f n, n < 2 ^ f → log2via (f + 1) n = log2via f n := by
  intro f
  induction f with
  | zero =>
    intro n h
    have hn : n = 0 := by omega
    subst hn; rfl
  | succ f ih =>
    intro n h
    have h2f : 2 ^ (f + 1) = 2 ^ f * 2 := pow_succ 2 f
    calc log2via (f + 1 + 1) n
        = if 2 ≤ n then log2via (f + 1) (n / 2) + 1 else 0 := rfl
      _ = if 2 ≤ n then log2via f (n / 2) + 1 else 0 := by
            split
            · rw [ih (n / 2) (by omega)]
            · rfl
      _ = log2via (f + 1) n := rfl

/-- Doubling a 63-bit path adds one bit to its length. -/
theorem log2via_two_mul (n : Nat) (h1 : 1 ≤ n) (h2 : n < 2 ^ 63) :
    log2via 64 (2 * n) = log2via 64 n + 1 := by
  rw [show (64 : Nat) = 63 + 1 from rfl, log2via_succ, if_pos (by omega),
    show 2 * n / 2 = n from by omega, log2via_stable 63 n h2]

/-- Doubling-plus-one on a 63-bit path adds one bit to its length. -/
theorem log2via_two_mul_add_one (n : Nat) (h1 : 1 ≤ n) (h2 : n < 2 ^ 63) :
    log2via 64 (2 * n + 1) = log2via 64 n + 1 := by
  rw [show (64 : Nat) = 63 + 1 from rfl, log2via_succ, if_pos (by omega),
    show (2 * n + 1) / 2 = n from by omega, log2via_stable 63 n h2]

/-- A path of value at least 4 has at least two descent steps. -/
theorem log2via_ge_two (p : Nat) (hp : 4 ≤ p) : 2 ≤ log2via 64 p := by
  rw [show (64 : Nat) = 63 + 1 from rfl, log2via_succ, if_pos (by omega),
    show (63 : Nat) = 62 + 1 from rfl, log2via_succ,
    if_pos (by omega : 2 ≤ p / 2)]
  omega

/-- The walk on path 2p is the walk on p followed by a head step. -/
theorem aux_two_mul : ∀ c p T,
    aux (c + 1) (2 * p) T = Except.bind (aux c p T) fun r => aux 1 2 r := by
  intro c
  induction c with
  | zero =>
    intro p T
    cases T with
    | atom a => rfl
    | cell car cdr =>
      show (if 2 * p / 2 ^ 0 % 2 = 0 then aux 0 (2 * p) car
            else aux 0 (2 * p) cdr) = _
      rw [if_pos (by omega)]
      rfl
  | succ c ih =>
    intro p T
    cases T with
    | atom a => rfl
    | cell car cdr =>
      show (if 2 * p / 2 ^ (c + 1) % 2 = 0 then aux (c + 1) (2 * p) car
            else aux (c + 1) (2 * p) cdr)
          = Except.bind (if p / 2 ^ c % 2 = 0 then aux c p car
            else aux c p cdr) fun r => aux 1 2 r
      have hdiv : 2 * p / 2 ^ (c + 1) = p / 2 ^ c := by
        rw [pow_succ, Nat.mul_comm (2 ^ c) 2]
        exact Nat.mul_div_mul_left p (2 ^ c) (by norm_num)
      rw [hdiv]
      split
      · exact ih p car
      · exact ih p cdr

/-- The walk on path 2p+1 is the walk on p followed by a tail step. -/
theorem aux_two_mul_add_one : ∀ c p T,
    aux (c + 1) (2 * p + 1) T = Except.bind (aux c p T) fun r => aux 1 3 r := by
  intro c
  induction c with
  | zero =>
    intro p T
    cases T with
    | atom a => rfl
    | cell car cdr =>
      show (if (2 * p + 1) / 2 ^ 0 % 2 = 0 then aux 0 (2 * p + 1) car
            else aux 0 (2 * p + 1) cdr) = _
      rw [if_neg (by omega)]
      rfl
  | succ c ih =>
    intro p T
    cases T with
    | atom a => rfl
    | cell car cdr =>
      show (if (2 * p + 1) / 2 ^ (c + 1) % 2 = 0 then aux (c + 1) (2 * p + 1) car
            else aux (c + 1) (2 * p + 1) cdr)
          = Except.bind (if p / 2 ^ c % 2 = 0 then aux c p car
            else aux c p cdr) fun r => aux 1 3 r
      have hdiv : (2 * p + 1) / 2 ^ (c + 1) = p / 2 ^ c := by
        rw [pow_succ, Nat.mul_comm (2 ^ c) 2, ← Nat.div_div_eq_div_mul,
          show (2 * p + 1) / 2 = p from by omega]
      rw [hdiv]
      split
      · exact ih p car
      · exact ih p cdr

/-- Two or more descent steps into a two-leaf tree of atoms always fail. -/
theorem aux_two_leaves_fail (c p x y : Nat) (hc : 2 ≤ c) :
    aux c p (.cell (.atom x) (.atom y)) = .error .notACell := by
  obtain ⟨c', rfl⟩ : ∃ c', c = c' + 2 := ⟨c - 2, by omega⟩
  show (if p / 2 ^ (c' + 1) % 2 = 0 then aux (c' + 1) p (.atom x)
        else aux (c' + 1) p (.atom y)) = _
  split <;> rfl

/-- A successful rplc_at walk relates to the recursive descent rplcGo: the
rebuild of the final stack equals the rebuild of rplcGo's result over the
initial stack. -/
theorem walk_ok_go : ∀ c p t stack st cur,
    rplcWalk c p t stack = .ok (st, cur) →
    ∀ v, ∃ r, rplcGo c p v t = .ok r ∧ rplcRebuild v st = rplcRebuild r stack := by
  intro c
  induction c with
  | zero =>
    intro p t stack st cur hw v
    obtain ⟨rfl, rfl⟩ : stack = st ∧ t = cur := by
      cases hw; exact ⟨rfl, rfl⟩
    exact ⟨v, rfl, rfl⟩
  | succ c ih =>
    intro p t stack st cur hw v
    cases t with
    | atom a => exact absurd hw (by simp [rplcWalk])
    | cell car cdr =>
      by_cases hb : p / 2 ^ c % 2 = 0
      · have hw' : rplcWalk c p car ((0, car, cdr) :: stack) = .ok (st, cur) := by
          rw [← hw]
          show _ = rplcWalk c p (if p / 2 ^ c % 2 = 0 then car else cdr)
            ((p / 2 ^ c % 2, car, cdr) :: stack)
          rw [hb, if_pos rfl]
        obtain ⟨r, hgo, hre⟩ := ih p car _ st cur hw' v
        refine ⟨.cell r cdr, ?_, ?_⟩
        · show (if p / 2 ^ c % 2 = 0 then
              (rplcGo c p v car).map fun r => Noun.cell r cdr
            else (rplcGo c p v cdr).map fun r => Noun.cell car r) = _
          rw [if_pos hb, hgo]; rfl
        · rw [hre]; rfl
      · have hw' : rplcWalk c p cdr ((p / 2 ^ c % 2, car, cdr) :: stack)
            = .ok (st, cur) := by
          rw [← hw]
          show _ = rplcWalk c p (if p / 2 ^ c % 2 = 0 then car else cdr)
            ((p / 2 ^ c % 2, car, cdr) :: stack)
          rw [if_neg hb]
        obtain ⟨r, hgo, hre⟩ := ih p cdr _ st cur hw' v
        refine ⟨.cell car r, ?_, ?_⟩
        · show (if p / 2 ^ c % 2 = 0 then
              (rplcGo c p v car).map fun r => Noun.cell r cdr
            else (rplcGo c p v cdr).map fun r => Noun.cell car r) = _
          rw [if_neg hb, hgo]; rfl
        · rw [hre]
          show rplcRebuild (if p / 2 ^ c % 2 = 0 then Noun.cell r cdr
            else Noun.cell car r) stack = _
          rw [if_neg hb]

/-- A failing rplc_at walk makes the recursive descent fail identically. -/
theorem walk_error_go : ∀ c p t stack e,
    rplcWalk c p t stack = .error e → ∀ v, rplcGo c p v t = .error e := by
  intro c
  induction c with
  | zero => intro p t stack e hw v; cases hw
  | succ c ih =>
    intro p t stack e hw v
    cases t with
    | atom a =>
      obtain rfl : Err.notACell = e := by cases hw; rfl
      rfl
    | cell car cdr =>
      by_cases hb : p / 2 ^ c % 2 = 0
      · have hw' : rplcWalk c p car ((0, car, cdr) :: stack) = .error e := by
          rw [← hw]
          show _ = rplcWalk c p (if p / 2 ^ c % 2 = 0 then car else cdr)
            ((p / 2 ^ c % 2, car, cdr) :: stack)
          rw [hb, if_pos rfl]
        show (if p / 2 ^ c % 2 = 0 then
            (rplcGo c p v car).map fun r => Noun.cell r cdr
          else (rplcGo c p v cdr).map fun r => Noun.cell car r) = _
        rw [if_pos hb, ih p car _ e hw' v]; rfl
      · have hw' : rplcWalk c p cdr ((p / 2 ^ c % 2, car, cdr) :: stack)
            = .error e := by
          rw [← hw]
          show _ = rplcWalk c p (if p / 2 ^ c % 2 = 0 then car else cdr)
            ((p / 2 ^ c % 2, car, cdr) :: stack)
          rw [if_neg hb]
        show (if p / 2 ^ c % 2 = 0 then
            (rplcGo c p v car).map fun r => Noun.cell r cdr
          else (rplcGo c p v cdr).map fun r => Noun.cell car r) = _
        rw [if_neg hb, ih p cdr _ e hw' v]; rfl

/-- For a nonzero path, fn rplc_at computes exactly the recursive descent
rplcGo started at the same cursor. -/
theorem rplc_at_go (p : Nat) (v t : Noun) (hp : p ≠ 0) :
    rplc_at p v t = rplcGo (log2via 64 p) p v t := by
  show (if p = 0 then Except.error Err.subUnderflow
    else match rplcWalk (log2via 64 p) p t [] with
    | .ok (stack, _) => .ok (rplcRebuild v stack)
    | .error e => .error e) = _
  rw [if_neg hp]
  cases hw : rplcWalk (log2via 64 p) p t [] with
  | ok pr =>
    obtain ⟨st, cur⟩ := pr
    obtain ⟨r, hgo, hre⟩ := walk_ok_go _ _ _ _ _ _ hw v
    rw [hgo]
    show Except.ok (rplcRebuild v st) = Except.ok r
    rw [hre]
    rfl
  | error e => rw [walk_error_go _ _ _ _ _ hw v]

/-- Reading back after a replace along the same walk recovers the new value. -/
theorem rplcGo_read : ∀ c p t v r0, aux c p t = .ok r0 →
    ∃ t', rplcGo c p v t = .ok t' ∧ aux c p t' = .ok v := by
  intro c
  induction c with
  | zero =>
    intro p t v r0 _
    exact ⟨v, rfl, rfl⟩
  | succ c ih =>
    intro p t v r0 ha
    cases t with
    | atom a => cases ha
    | cell car cdr =>
      by_cases hb : p / 2 ^ c % 2 = 0
      · have ha' : aux c p car = .ok r0 := by
          rw [← ha]
          show _ = (if p / 2 ^ c % 2 = 0 then aux c p car else aux c p cdr)
          rw [if_pos hb]
        obtain ⟨t', hgo, hrd⟩ := ih p car v r0 ha'
        refine ⟨.cell t' cdr, ?_, ?_⟩
        · show (if p / 2 ^ c % 2 = 0 then
              (rplcGo c p v car).map fun r => Noun.cell r cdr
            else (rplcGo c p v cdr).map fun r => Noun.cell car r) = _
          rw [if_pos hb, hgo]; rfl
        · show (if p / 2 ^ c % 2 = 0 then aux c p t' else aux c p cdr) = _
          rw [if_pos hb, hrd]
      · have ha' : aux c p cdr = .ok r0 := by
          rw [← ha]
          show _ = (if p / 2 ^ c % 2 = 0 then aux c p car else aux c p cdr)
          rw [if_neg hb]
        obtain ⟨t', hgo, hrd⟩ := ih p cdr v r0 ha'
        refine ⟨.cell car t', ?_, ?_⟩
        · show (if p / 2 ^ c % 2 = 0 then
              (rplcGo c p v car).map fun r => Noun.cell r cdr
            else (rplcGo c p v cdr).map fun r => Noun.cell car r) = _
          rw [if_neg hb, hgo]; rfl
        · show (if p / 2 ^ c % 2 = 0 then aux c p car else aux c p t') = _
          rw [if_neg hb, hrd]

/-- Writing back the value just read rebuilds the original tree. -/
theorem rplcGo_write_id : ∀ c p t r, aux c p t = .ok r →
    rplcGo c p r t = .ok t := by
  intro c
  induction c with
  | zero =>
    intro p t r ha
    obtain rfl : t = r := by cases ha; rfl
    rfl
  | succ c ih =>
    intro p t r ha
    cases t with
    | atom a => cases ha
    | cell car cdr =>
      by_cases hb : p / 2 ^ c % 2 = 0
      · have ha' : aux c p car = .ok r := by
          rw [← ha]
          show _ = (if p / 2 ^ c % 2 = 0 then aux c p car else aux c p cdr)
          rw [if_pos hb]
        show (if p / 2 ^ c % 2 = 0 then
            (rplcGo c p r car).map fun x => Noun.cell x cdr
          else (rplcGo c p r cdr).map fun x => Noun.cell car x) = _
        rw [if_pos hb, ih p car r ha']; rfl
      · have ha' : aux c p cdr = .ok r := by
          rw [← ha]
          show _ = (if p / 2 ^ c % 2 = 0 then aux c p car else aux c p cdr)
          rw [if_neg hb]
        show (if p / 2 ^ c % 2 = 0 then
            (rplcGo c p r car).map fun x => Noun.cell x cdr
          else (rplcGo c p r cdr).map fun x => Noun.cell car x) = _
        rw [if_neg hb, ih p cdr r ha']; rfl

/-- The replace descent fails exactly where the read descent fails, with the
same error. -/
theorem rplcGo_error_iff : ∀ c p t v e,
    rplcGo c p v t = .error e ↔ aux c p t = .error e := by
  intro c
  induction c with
  | zero =>
    intro p t v e
    constructor <;> (intro h; cases h)
  | succ c ih =>
    intro p t v e
    cases t with
    | atom a => exact Iff.rfl
    | cell car cdr =>
      by_cases hb : p / 2 ^ c % 2 = 0
      · calc rplcGo (c + 1) p v (.cell car cdr) = .error e
            ↔ (rplcGo c p v car).map (fun r => Noun.cell r cdr) = .error e := by
              rw [show rplcGo (c + 1) p v (.cell car cdr)
                  = (rplcGo c p v car).map fun r => Noun.cell r cdr from by
                show (if p / 2 ^ c % 2 = 0 then
                    (rplcGo c p v car).map fun r => Noun.cell r cdr
                  else (rplcGo c p v cdr).map fun r => Noun.cell car r) = _
                rw [if_pos hb]]
          _ ↔ rplcGo c p v car = .error e := by
              cases hg : rplcGo c p v car <;> simp [Except.map]
          _ ↔ aux c p car = .error e := ih p car v e
          _ ↔ aux (c + 1) p (.cell car cdr) = .error e := by
              rw [show aux (c + 1) p (.cell car cdr) = aux c p car from by
                show (if p / 2 ^ c % 2 = 0 then aux c p car else aux c p cdr) = _
                rw [if_pos hb]]
      · calc rplcGo (c + 1) p v (.cell car cdr) = .error e
            ↔ (rplcGo c p v cdr).map (fun r => Noun.cell car r) = .error e := by
              rw [show rplcGo (c + 1) p v (.cell car cdr)
                  = (rplcGo c p v cdr).map fun r => Noun.cell car r from by
                show (if p / 2 ^ c % 2 = 0 then
                    (rplcGo c p v car).map fun r => Noun.cell r cdr
                  else (rplcGo c p v cdr).map fun r => Noun.cell car r) = _
                rw [if_neg hb]]
          _ ↔ rplcGo c p v cdr = .error e := by
              cases hg : rplcGo c p v cdr <;> simp [Except.map]
          _ ↔ aux c p cdr = .error e := ih p cdr v e
          _ ↔ aux (c + 1) p (.cell car cdr) = .error e := by
              rw [show aux (c + 1) p (.cell car cdr) = aux c p cdr from by
                show (if p / 2 ^ c % 2 = 0 then aux c p car else aux c p cdr) = _
                rw [if_neg hb]]

theorem nounEqGo_eq_true_iff : ∀ l, nounEqGo l = true ↔ ∀ p ∈ l, p.1 = p.2 := by
  intro l
  induction l using nounEqGo.induct with
  | case1 => simp [nounEqGo]
  | case2 b rest ih => simp [nounEqGo, ih]
  | case3 a b rest hab =>
    simp only [nounEqGo, if_neg hab, Bool.false_eq_true, false_iff]
    intro h
    have h1 := h _ (List.mem_cons_self _ _)
    have h2 : Noun.atom a = Noun.atom b := h1
    injection h2 with e
    exact hab e
  | case4 a1 a2 b1 b2 rest ih =>
    simp only [nounEqGo]
    rw [ih]
    constructor
    · intro h p hp
      rcases List.mem_cons.mp hp with rfl | hp'
      · have h1 : a1 = b1 := h (a1, b1) (by simp)
        have h2 : a2 = b2 := h (a2, b2) (by simp)
        show Noun.cell a1 a2 = Noun.cell b1 b2
        rw [h1, h2]
      · exact h p (List.mem_append_left _ hp')
    · intro h p hp
      rcases List.mem_append.mp hp with hp' | hp'
      · exact h p (List.mem_cons_of_mem _ hp')
      · have hc : Noun.cell a1 a2 = Noun.cell b1 b2 :=
          h _ (List.mem_cons_self _ _)
        injection hc with e1 e2
        rcases List.mem_cons.mp hp' with rfl | hp''
        · exact e1
        · rcases List.mem_singleton.mp hp'' with rfl
          exact e2
  | case5 a b1 b2 rest =>
    simp only [nounEqGo, Bool.false_eq_true, false_iff]
    intro h
    have h1 : Noun.atom a = Noun.cell b1 b2 := h _ (List.mem_cons_self _ _)
    exact Noun.noConfusion h1
  | case6 a1 a2 b rest =>
    simp only [nounEqGo, Bool.false_eq_true, false_iff]
    intro h
    have h1 : Noun.cell a1 a2 = Noun.atom b := h _ (List.mem_cons_self _ _)
    exact Noun.noConfusion h1

theorem noun_eq_iff (a b : Noun) : noun_eq a b = true ↔ a = b := by
  rw [noun_eq, nounEqGo_eq_true_iff]
  simp

theorem noun_eq_refl (a : Noun) : noun_eq a a = true := by
  rw [noun_eq_iff]

/-- Mono transfer for fn eval: a stronger recursive evaluator preserves
successful results. -/
theorem eval_mono (p q : Noun → Except Err Noun)
    (h : ∀ m r, p m = .ok r → q m = .ok r) (s b r : Noun)
    (he : eval p s b = .ok r) : eval q s b = .ok r := by
  cases b with
  | atom a => cases he
  | cell b c =>
    replace he : Except.bind (p (.cell s b)) (fun eb =>
        Except.bind (p (.cell s c)) fun ec => p (.cell eb ec)) = .ok r := he
    cases h1 : p (.cell s b) with
    | error e => rw [h1, error_bind] at he; cases he
    | ok eb =>
      rw [h1, ok_bind] at he
      cases h2 : p (.cell s c) with
      | error e => rw [h2, error_bind] at he; cases he
      | ok ec =>
        rw [h2, ok_bind] at he
        show Except.bind (q (.cell s b)) (fun eb =>
          Except.bind (q (.cell s c)) fun ec => q (.cell eb ec)) = .ok r
        rw [h _ _ h1, ok_bind, h _ _ h2, ok_bind]
        exact h _ _ he

/-- Mono transfer for fn cell. -/
theorem cell_mono (p q : Noun → Except Err Noun)
    (h : ∀ m r, p m = .ok r → q m = .ok r) (s b r : Noun)
    (he : cell p s b = .ok r) : cell q s b = .ok r := by
  replace he : Except.bind (p (.cell s b)) (fun prod =>
      .ok (.atom (if prod.is_cell then 0 else 1))) = .ok r := he
  cases h1 : p (.cell s b) with
  | error e => rw [h1, error_bind] at he; cases he
  | ok prod =>
    rw [h1, ok_bind] at he
    show Except.bind (q (.cell s b)) (fun prod =>
      .ok (.atom (if prod.is_cell then 0 else 1))) = .ok r
    rw [h _ _ h1, ok_bind]
    exact he

/-- Mono transfer for fn incr. -/
theorem incr_mono (p q : Noun → Except Err Noun)
    (h : ∀ m r, p m = .ok r → q m = .ok r) (s b r : Noun)
    (he : incr p s b = .ok r) : incr q s b = .ok r := by
  replace he : Except.bind (p (.cell s b)) (fun prod =>
      match prod with
      | .atom a =>
          match Atom.incr a with
          | .ok n => .ok (.atom n)
          | .error e => .error e
      | .cell _ _ => .error .notAnAtom) = .ok r := he
  cases h1 : p (.cell s b) with
  | error e => rw [h1, error_bind] at he; cases he
  | ok prod =>
    rw [h1, ok_bind] at he
    show Except.bind (q (.cell s b)) (fun prod =>
      match prod with
      | .atom a =>
          match Atom.incr a with
          | .ok n => .ok (.atom n)
          | .error e => .error e
      | .cell _ _ => .error .notAnAtom) = .ok r
    rw [h _ _ h1, ok_bind]
    exact he

/-- Mono transfer for fn eqal. -/
theorem eqal_mono (p q : Noun → Except Err Noun)
    (h : ∀ m r, p m = .ok r → q m = .ok r) (s b r : Noun)
    (he : eqal p s b = .ok r) : eqal q s b = .ok r := by
  cases b with
  | atom a => cases he
  | cell b c =>
    replace he : Except.bind (p (.cell s b)) (fun eb =>
        Except.bind (p (.cell s c)) fun ec =>
        .ok (.atom (if noun_eq eb ec then 0 else 1))) = .ok r := he
    cases h1 : p (.cell s b) with
    | error e => rw [h1, error_bind] at he; cases he
    | ok eb =>
      rw [h1, ok_bind] at he
      cases h2 : p (.cell s c) with
      | error e => rw [h2, error_bind] at he; cases he
      | ok ec =>
        rw [h2, ok_bind] at he
        show Except.bind (q (.cell s b)) (fun eb =>
          Except.bind (q (.cell s c)) fun ec =>
          .ok (.atom (if noun_eq eb ec then 0 else 1))) = .ok r
        rw [h _ _ h1, ok_bind, h _ _ h2, ok_bind]
        exact he

/-- Mono transfer for fn brch. -/
theorem brch_mono (p q : Noun → Except Err Noun)
    (h : ∀ m r, p m = .ok r → q m = .ok r) (s b r : Noun)
    (he : brch p s b = .ok r) : brch q s b = .ok r := by
  cases b with
  | atom a => cases he
  | cell b cd =>
    cases cd with
    | atom a => cases he
    | cell c d =>
      replace he : Except.bind
          (p (.cell s (.cell (.atom 4) (.cell (.atom 4) b)))) (fun cond =>
          Except.bind (p (.cell (.cell (.atom 2) (.atom 3))
            (.cell (.atom 0) cond))) fun a_ =>
          Except.bind (p (.cell (.cell c d) (.cell (.atom 0) a_))) fun f2 =>
          p (.cell s f2)) = .ok r := he
      cases h1 : p (.cell s (.cell (.atom 4) (.cell (.atom 4) b))) with
      | error e => rw [h1, error_bind] at he; cases he
      | ok cond =>
        rw [h1, ok_bind] at he
        cases h2 : p (.cell (.cell (.atom 2) (.atom 3))
            (.cell (.atom 0) cond)) with
        | error e => rw [h2, error_bind] at he; cases he
        | ok a_ =>
          rw [h2, ok_bind] at he
          cases h3 : p (.cell (.cell c d) (.cell (.atom 0) a_)) with
          | error e => rw [h3, error_bind] at he; cases he
          | ok f2 =>
            rw [h3, ok_bind] at he
            show Except.bind
              (q (.cell s (.cell (.atom 4) (.cell (.atom 4) b)))) (fun cond =>
              Except.bind (q (.cell (.cell (.atom 2) (.atom 3))
                (.cell (.atom 0) cond))) fun a_ =>
              Except.bind (q (.cell (.cell c d) (.cell (.atom 0) a_))) fun f2 =>
              q (.cell s f2)) = .ok r
            rw [h _ _ h1, ok_bind, h _ _ h2, ok_bind, h _ _ h3, ok_bind]
            exact h _ _ he

/-- Mono transfer for fn cmps. -/
theorem cmps_mono (p q : Noun → Except Err Noun)
    (h : ∀ m r, p m = .ok r → q m = .ok r) (s b r : Noun)
    (he : cmps p s b = .ok r) : cmps q s b = .ok r := by
  cases b with
  | atom a => cases he
  | cell b c =>
    replace he : Except.bind (p (.cell s b)) (fun eb =>
        p (.cell eb c)) = .ok r := he
    cases h1 : p (.cell s b) with
    | error e => rw [h1, error_bind] at he; cases he
    | ok eb =>
      rw [h1, ok_bind] at he
      show Except.bind (q (.cell s b)) (fun eb => q (.cell eb c)) = .ok r
      rw [h _ _ h1, ok_bind]
      exact h _ _ he

/-- Mono transfer for fn extn. -/
theorem extn_mono (p q : Noun → Except Err Noun)
    (h : ∀ m r, p m = .ok r → q m = .ok r) (s b r : Noun)
    (he : extn p s b = .ok r) : extn q s b = .ok r := by
  cases b with
  | atom a => cases he
  | cell b c =>
    replace he : Except.bind (p (.cell s b)) (fun eb =>
        p (.cell (.cell eb s) c)) = .ok r := he
    cases h1 : p (.cell s b) with
    | error e => rw [h1, error_bind] at he; cases he
    | ok eb =>
      rw [h1, ok_bind] at he
      show Except.bind (q (.cell s b)) (fun eb =>
        q (.cell (.cell eb s) c)) = .ok r
      rw [h _ _ h1, ok_bind]
      exact h _ _ he

/-- Mono transfer for fn invk. -/
theorem invk_mono (p q : Noun → Except Err Noun)
    (h : ∀ m r, p m = .ok r → q m = .ok r) (s b r : Noun)
    (he : invk p s b = .ok r) : invk q s b = .ok r := by
  cases b with
  | atom a => cases he
  | cell b c =>
    replace he : Except.bind (p (.cell s c)) (fun core =>
        p (.cell core (.cell (.atom 2)
          (.cell (.cell (.atom 0) (.atom 1)) (.cell (.atom 0) b))))) = .ok r := he
    cases h1 : p (.cell s c) with
    | error e => rw [h1, error_bind] at he; cases he
    | ok core =>
      rw [h1, ok_bind] at he
      show Except.bind (q (.cell s c)) (fun core =>
        q (.cell core (.cell (.atom 2)
          (.cell (.cell (.atom 0) (.atom 1)) (.cell (.atom 0) b))))) = .ok r
      rw [h _ _ h1, ok_bind]
      exact h _ _ he

/-- Mono transfer for fn rplc. -/
theorem rplc_mono (p q : Noun → Except Err Noun)
    (h : ∀ m r, p m = .ok r → q m = .ok r) (s b r : Noun)
    (he : rplc p s b = .ok r) : rplc q s b = .ok r := by
  cases b with
  | atom a => cases he
  | cell bc d =>
    cases bc with
    | atom a => cases he
    | cell b c =>
      cases b with
      | cell x y => cases he
      | atom bv =>
        replace he : Except.bind (p (.cell s c)) (fun ec =>
            Except.bind (p (.cell s d)) fun ed =>
            rplc_at bv ec ed) = .ok r := he
        cases h1 : p (.cell s c) with
        | error e => rw [h1, error_bind] at he; cases he
        | ok ec =>
          rw [h1, ok_bind] at he
          cases h2 : p (.cell s d) with
          | error e => rw [h2, error_bind] at he; cases he
          | ok ed =>
            rw [h2, ok_bind] at he
            show Except.bind (q (.cell s c)) (fun ec =>
              Except.bind (q (.cell s d)) fun ed =>
              rplc_at bv ec ed) = .ok r
            rw [h _ _ h1, ok_bind, h _ _ h2, ok_bind]
            exact he

/-- Successful nock reductions are preserved by one more unit of fuel. -/
theorem nock_mono_succ : ∀ f n r, nock f n = .ok r → nock (f + 1) n = .ok r := by
  intro f
  induction f with
  | zero => intro n r h; cases h
  | succ f ih =>
    intro n r he
    cases n with
    | atom a => cases he
    | cell subj form =>
      cases form with
      | atom a => cases he
      | cell inst b =>
        cases inst with
        | cell b_ c =>
          replace he : Except.bind (nock f (.cell subj (.cell b_ c))) (fun x =>
              Except.bind (nock f (.cell subj b)) fun y =>
              .ok (.cell x y)) = .ok r := he
          cases h1 : nock f (.cell subj (.cell b_ c)) with
          | error e => rw [h1, error_bind] at he; cases he
          | ok x =>
            rw [h1, ok_bind] at he
            cases h2 : nock f (.cell subj b) with
            | error e => rw [h2, error_bind] at he; cases he
            | ok y =>
              rw [h2, ok_bind] at he
              show Except.bind (nock (f + 1) (.cell subj (.cell b_ c))) (fun x =>
                Except.bind (nock (f + 1) (.cell subj b)) fun y =>
                .ok (.cell x y)) = .ok r
              rw [ih _ _ h1, ok_bind, ih _ _ h2, ok_bind]
              exact he
        | atom k =>
          rcases k with _|_|_|_|_|_|_|_|_|_|_|_|k
          · exact he
          · exact he
          · exact eval_mono (fun m => nock f m) (fun m => nock (f + 1) m)
              ih subj b r he
          · exact cell_mono (fun m => nock f m) (fun m => nock (f + 1) m)
              ih subj b r he
          · exact incr_mono (fun m => nock f m) (fun m => nock (f + 1) m)
              ih subj b r he
          · exact eqal_mono (fun m => nock f m) (fun m => nock (f + 1) m)
              ih subj b r he
          · exact brch_mono (fun m => nock f m) (fun m => nock (f + 1) m)
              ih subj b r he
          · exact cmps_mono (fun m => nock f m) (fun m => nock (f + 1) m)
              ih subj b r he
          · exact extn_mono (fun m => nock f m) (fun m => nock (f + 1) m)
              ih subj b r he
          · exact invk_mono (fun m => nock f m) (fun m => nock (f + 1) m)
              ih subj b r he
          · exact rplc_mono (fun m => nock f m) (fun m => nock (f + 1) m)
              ih subj b r he
          · exact Except.noConfusion
              (show (Except.error Err.unsupported : Except Err Noun) = .ok r from he)
          · exact Except.noConfusion
              (show (Except.error Err.unsupported : Except Err Noun) = .ok r from he)

/-- Successful nock reductions are preserved by any additional fuel. -/
theorem nock_mono : ∀ f g n r, f ≤ g → nock f n = .ok r → nock g n = .ok r := by
  intro f g n r hfg h
  induction g with
  | zero =>
    obtain rfl : f = 0 := by omega
    exact h
  | succ g ih =>
    rcases Nat.lt_or_ge f (g + 1) with hlt | hge
    · exact nock_mono_succ g n r (ih (by omega))
    · obtain rfl : f = g + 1 := by omega
      exact h

/-- nock results are deterministic across fuel amounts. -/
theorem nock_det (f g : Nat) (n : Noun) (r r' : Noun)
    (hf : nock f n = .ok r) (hg : nock g n = .ok r') : r = r' := by
  rcases Nat.le_total f g with hle | hle
  · have h2 := nock_mono f g n r hle hf
    rw [h2] at hg
    injection hg
  · have h2 := nock_mono g f n r' hle hg
    rw [h2] at hf
    injection hf with e
    exact e.symm

/-- Claim C1: for every path p valid against a noun T (p nonzero and every
descent of p from T reaches a cell, i.e. read succeeds) and every noun V,
reading back the written slot recovers the value:
read(p, replace(p, V, T)) = V. -/
theorem C1_read_replace_roundtrip (p : Nat) (V T r : Noun)
    (hvalid : read p T = .ok r) :
    Except.bind (rplc_at p V T) (fun T2 => read p T2) = .ok V := by
  have hn0 : p ≠ 0 := by
    intro h
    subst h
    replace hvalid : (Except.error Err.invalidAddress : Except Err Noun)
        = .ok r := hvalid
    cases hvalid
  have haux : aux (log2via 64 p) p T = .ok r := by
    have e : read p T = if p = 0 then .error .invalidAddress
        else aux (log2via 64 p) p T := rfl
    rw [e, if_neg hn0] at hvalid
    exact hvalid
  obtain ⟨t', hgo, hrd⟩ := rplcGo_read (log2via 64 p) p T V r haux
  rw [rplc_at_go p V T hn0, hgo, ok_bind]
  show (if p = 0 then Except.error Err.invalidAddress
    else aux (log2via 64 p) p t') = .ok V
  rw [if_neg hn0, hrd]

/-- Witness for C1 at path 2 into (1 . 2) with value 9. -/
theorem C1_read_replace_roundtrip_witness :
    Except.bind (rplc_at 2 (.atom 9) (.cell (.atom 1) (.atom 2)))
      (fun T2 => read 2 T2) = .ok (.atom 9) :=
  C1_read_replace_roundtrip 2 (.atom 9) (.cell (.atom 1) (.atom 2)) (.atom 1)
    (by decide)

/-- Counterexample to claim C2 as stated: replace with path 0 does not fail
with InvalidAddress (the zero check of fn addr); fn rplc_at has no zero check
and instead aborts in the cursor computation (debug-build subtraction
underflow). -/
theorem C2_zero_path_counterexample :
    rplc_at 0 (.atom 1) (.cell (.atom 2) (.atom 3)) = .error .subUnderflow
    ∧ rplc_at 0 (.atom 1) (.cell (.atom 2) (.atom 3))
      ≠ .error .invalidAddress := by
  exact ⟨by decide, by decide⟩

/-- Claim C2 as amended: replace with path 0 always fails and never returns a
noun, but through the cursor underflow abort rather than InvalidAddress; for
every nonzero path, replace fails exactly where read fails, with the same
error (NotACell on an atom descent). -/
theorem C2_amended_replace_failure (p : Nat) (v t : Noun) :
    (p = 0 → rplc_at p v t = .error .subUnderflow)
    ∧ (p ≠ 0 → ∀ e, rplc_at p v t = .error e ↔ read p t = .error e) := by
  constructor
  · intro h
    subst h
    rfl
  · intro hn0 e
    rw [rplc_at_go p v t hn0]
    rw [show read p t = if p = 0 then .error .invalidAddress
      else aux (log2via 64 p) p t from rfl, if_neg hn0]
    exact rplcGo_error_iff (log2via 64 p) p t v e

/-- Witness for the amended C2: path 0 aborts with the underflow, and at path
5 into the atom 2 the replace and read failures coincide. -/
theorem C2_amended_replace_failure_witness :
    rplc_at 0 (.atom 1) (.atom 2) = .error .subUnderflow
    ∧ (rplc_at 5 (.atom 1) (.atom 2) = .error .notACell
      ↔ read 5 (.atom 2) = .error .notACell) :=
  ⟨(C2_amended_replace_failure 0 (.atom 1) (.atom 2)).1 rfl,
   (C2_amended_replace_failure 5 (.atom 1) (.atom 2)).2 (by decide) .notACell⟩

/-- Claim C3: a formula whose instruction slot is a cell (b . c) distributes:
the result pairs the reduction of (b . c) and of the tail d, both against the
same original subject, with errors propagating from the first half first; this
applies to every cell-shaped instruction slot, before opcode dispatch. -/
theorem C3_autocons (f : Nat) (s b c d : Noun) :
    nock (f + 1) (.cell s (.cell (.cell b c) d)) =
      Except.bind (nock f (.cell s (.cell b c))) fun x =>
      Except.bind (nock f (.cell s d)) fun y =>
      .ok (.cell x y) := rfl

/-- Claim C5: the address laws.  Path 1 is the identity on a cell, paths 2 and
3 are head and tail, and for n ≥ 1 (with 2n+1 still a u64 atom) path 2n reads
the head of path n and path 2n+1 the tail. -/
theorem C5_address_laws :
    (∀ H Ta : Noun, read 1 (.cell H Ta) = .ok (.cell H Ta)
      ∧ read 2 (.cell H Ta) = .ok H ∧ read 3 (.cell H Ta) = .ok Ta)
    ∧ (∀ (n : Nat) (T r : Noun), 1 ≤ n → 2 * n + 1 < 2 ^ 64 →
      read n T = .ok r →
      read (2 * n) T = read 2 r ∧ read (2 * n + 1) T = read 3 r) := by
  constructor
  · intro H Ta
    exact ⟨rfl, rfl, rfl⟩
  · intro n T r h1 h2 hr
    have e64 : (2 : Nat) ^ 64 = 18446744073709551616 := by norm_num
    have e63 : (2 : Nat) ^ 63 = 9223372036854775808 := by norm_num
    have hn0 : n ≠ 0 := by omega
    have hb63 : n < 2 ^ 63 := by omega
    have haux : aux (log2via 64 n) n T = .ok r := by
      have e : read n T = if n = 0 then .error .invalidAddress
          else aux (log2via 64 n) n T := rfl
      rw [e, if_neg hn0] at hr
      exact hr
    constructor
    · show (if 2 * n = 0 then Except.error Err.invalidAddress
        else aux (log2via 64 (2 * n)) (2 * n) T) = read 2 r
      rw [if_neg (by omega), log2via_two_mul n h1 hb63, aux_two_mul, haux,
        ok_bind]
      rfl
    · show (if 2 * n + 1 = 0 then Except.error Err.invalidAddress
        else aux (log2via 64 (2 * n + 1)) (2 * n + 1) T) = read 3 r
      rw [if_neg (by omega), log2via_two_mul_add_one n h1 hb63,
        aux_two_mul_add_one, haux, ok_bind]
      rfl

/-- Witness for C5 at n = 3 into (5 . (7 . 8)): path 6 reads the head and
path 7 the tail of the subtree at path 3. -/
theorem C5_address_laws_witness :
    read 6 (.cell (.atom 5) (.cell (.atom 7) (.atom 8)))
      = read 2 (.cell (.atom 7) (.atom 8))
    ∧ read 7 (.cell (.atom 5) (.cell (.atom 7) (.atom 8)))
      = read 3 (.cell (.atom 7) (.atom 8)) :=
  C5_address_laws.2 3 (.cell (.atom 5) (.cell (.atom 7) (.atom 8)))
    (.cell (.atom 7) (.atom 8)) (by decide) (by decide) (by decide)

/-- Claim C6: structural equality is sound and complete — noun_eq returns
true exactly when the two nouns are the same tree of atom values (in the
embedding, sharing is invisible and propositional equality is tree equality). -/
theorem C6_structural_equality (a b : Noun) : noun_eq a b = true ↔ a = b :=
  noun_eq_iff a b

/-- Counterexample to claim C8 as stated: opcode 11 never produces a value;
reducing (0 . (11 . (1 . 7))) aborts with the todo!("hint") panic while the
carried sub-formula (1 . 7) reduces to 7. -/
theorem C8_hint_counterexample :
    nock 5 (.cell (.atom 0) (.cell (.atom 11) (.cell (.atom 1) (.atom 7))))
      = .error .unsupported
    ∧ nock 5 (.cell (.atom 0) (.cell (.atom 1) (.atom 7))) = .ok (.atom 7) :=
  ⟨rfl, rfl⟩

/-- Claim C8 as amended: opcode 11 (hint) is recognized but unimplemented in
this build: for every subject and operand, reduction aborts with the
todo!("hint") panic (UnsupportedOpcode tier) and never produces a value. -/
theorem C8_amended_hint (f : Nat) (s b : Noun) :
    nock (f + 1) (.cell s (.cell (.atom 11) b)) = .error .unsupported := rfl

/-- Claim C9: writing back what was read is the identity up to structural
equality: replace(p, read(p, T), T) is structurally equal to T. -/
theorem C9_replace_read_identity (p : Nat) (T r : Noun)
    (hread : read p T = .ok r) :
    ∃ T2, rplc_at p r T = .ok T2 ∧ noun_eq T2 T = true := by
  have hn0 : p ≠ 0 := by
    intro h
    subst h
    replace hread : (Except.error Err.invalidAddress : Except Err Noun)
        = .ok r := hread
    cases hread
  have haux : aux (log2via 64 p) p T = .ok r := by
    have e : read p T = if p = 0 then .error .invalidAddress
        else aux (log2via 64 p) p T := rfl
    rw [e, if_neg hn0] at hread
    exact hread
  refine ⟨T, ?_, noun_eq_refl T⟩
  rw [rplc_at_go p r T hn0]
  exact rplcGo_write_id (log2via 64 p) p T r haux

/-- Witness for C9 at path 3 into (7 . 8). -/
theorem C9_replace_read_identity_witness :
    ∃ T2, rplc_at 3 (.atom 8) (.cell (.atom 7) (.atom 8)) = .ok T2
      ∧ noun_eq T2 (.cell (.atom 7) (.atom 8)) = true :=
  C9_replace_read_identity 3 (.cell (.atom 7) (.atom 8)) (.atom 8) (by decide)

/-- Counterexample to claim C7 as stated: at v = 2^64 - 1 the u64 increment
`1 + atom` does not produce the atom v + 1; the checked addition aborts
(release builds would wrap), so quoting 2^64 - 1 and incrementing fails. -/
theorem C7_increment_counterexample :
    nock 2 (.cell (.atom 0) (.cell (.atom 4)
      (.cell (.atom 1) (.atom 18446744073709551615)))) = .error .overflow
    ∧ nock 2 (.cell (.atom 0) (.cell (.atom 4)
      (.cell (.atom 1) (.atom 18446744073709551615))))
      ≠ .ok (.atom 18446744073709551616) := by
  exact ⟨by decide, by decide⟩

/-- Claim C7 as amended: if the operand of opcode 4 reduces to an atom v with
v + 1 < 2^64, the result is the atom v + 1; at v = 2^64 - 1 the increment
aborts on u64 overflow with no result; if the operand reduces to a cell, the
operation fails with NotAnAtom and no partial result. -/
theorem C7_amended_increment (f : Nat) (s F : Noun) :
    (∀ v, nock f (.cell s F) = .ok (.atom v) → 1 + v < 2 ^ 64 →
      nock (f + 1) (.cell s (.cell (.atom 4) F)) = .ok (.atom (1 + v)))
    ∧ (∀ v, nock f (.cell s F) = .ok (.atom v) → 2 ^ 64 ≤ 1 + v →
      nock (f + 1) (.cell s (.cell (.atom 4) F)) = .error .overflow)
    ∧ (∀ x y, nock f (.cell s F) = .ok (.cell x y) →
      nock (f + 1) (.cell s (.cell (.atom 4) F)) = .error .notAnAtom) := by
  refine ⟨?_, ?_, ?_⟩
  · intro v hv hlt
    show Except.bind (nock f (.cell s F)) (fun prod =>
      match prod with
      | Noun.atom a =>
          match Atom.incr a with
          | Except.ok n => Except.ok (Noun.atom n)
          | Except.error e => Except.error e
      | Noun.cell _ _ => Except.error Err.notAnAtom) = .ok (.atom (1 + v))
    rw [hv, ok_bind]
    show (match Atom.incr v with
      | Except.ok n => Except.ok (Noun.atom n)
      | Except.error e => Except.error e) = _
    rw [show Atom.incr v = .ok (1 + v) from by
      show (if 1 + v < 2 ^ 64 then Except.ok (1 + v)
        else Except.error Err.overflow) = Except.ok (1 + v)
      rw [if_pos hlt]]
  · intro v hv hge
    show Except.bind (nock f (.cell s F)) (fun prod =>
      match prod with
      | Noun.atom a =>
          match Atom.incr a with
          | Except.ok n => Except.ok (Noun.atom n)
          | Except.error e => Except.error e
      | Noun.cell _ _ => Except.error Err.notAnAtom) = .error .overflow
    rw [hv, ok_bind]
    show (match Atom.incr v with
      | Except.ok n => Except.ok (Noun.atom n)
      | Except.error e => Except.error e) = _
    rw [show Atom.incr v = .error .overflow from by
      show (if 1 + v < 2 ^ 64 then Except.ok (1 + v)
        else Except.error Err.overflow) = Except.error Err.overflow
      rw [if_neg (by omega)]]
  · intro x y hv
    show Except.bind (nock f (.cell s F)) (fun prod =>
      match prod with
      | Noun.atom a =>
          match Atom.incr a with
          | Except.ok n => Except.ok (Noun.atom n)
          | Except.error e => Except.error e
      | Noun.cell _ _ => Except.error Err.notAnAtom) = .error .notAnAtom
    rw [hv, ok_bind]

/-- Witness for the amended C7: incrementing subject 41 through address 1
yields 42, and incrementing a quoted cell fails NotAnAtom. -/
theorem C7_amended_increment_witness :
    nock 2 (.cell (.atom 41) (.cell (.atom 4) (.cell (.atom 0) (.atom 1))))
      = .ok (.atom 42)
    ∧ nock 2 (.cell (.atom 0) (.cell (.atom 4)
      (.cell (.atom 1) (.cell (.atom 1) (.atom 2))))) = .error .notAnAtom :=
  ⟨(C7_amended_increment 1 (.atom 41) (.cell (.atom 0) (.atom 1))).1 41
      (by decide) (by decide),
   (C7_amended_increment 1 (.atom 0)
      (.cell (.atom 1) (.cell (.atom 1) (.atom 2)))).2.2 (.atom 1) (.atom 2)
      (by decide)⟩

/-- Claim C4: opcode 6 (branch).  If the test reduces to atom 0 the branch
computes exactly what reducing the then-formula against the same subject
computes; if atom 1, the else-formula; the two concrete examples of the spec
evaluate to 99 and 42. -/
theorem C4_branch_semantics :
    (∀ (f : Nat) (s B C D : Noun), nock f (.cell s B) = .ok (.atom 0) →
      nock (f + 3) (.cell s (.cell (.atom 6) (.cell B (.cell C D))))
        = nock (f + 2) (.cell s C))
    ∧ (∀ (f : Nat) (s B C D : Noun), nock f (.cell s B) = .ok (.atom 1) →
      nock (f + 3) (.cell s (.cell (.atom 6) (.cell B (.cell C D))))
        = nock (f + 2) (.cell s D))
    ∧ nock 9 (.cell (.atom 0) (.cell (.atom 6) (.cell (.cell (.atom 0) (.atom 1))
        (.cell (.cell (.atom 1) (.atom 99)) (.cell (.atom 1) (.atom 42))))))
      = .ok (.atom 99)
    ∧ nock 9 (.cell (.atom 1) (.cell (.atom 6) (.cell (.cell (.atom 0) (.atom 1))
        (.cell (.cell (.atom 1) (.atom 99)) (.cell (.atom 1) (.atom 42))))))
      = .ok (.atom 42) := by
  refine ⟨?_, ?_, by decide, by decide⟩
  · intro f s B C D hB
    have h1 : nock (f + 1) (.cell s (.cell (.atom 4) B)) = .ok (.atom 1) := by
      show Except.bind (nock f (.cell s B)) (fun prod =>
        match prod with
        | Noun.atom a =>
            match Atom.incr a with
            | Except.ok n => Except.ok (Noun.atom n)
            | Except.error e => Except.error e
        | Noun.cell _ _ => Except.error Err.notAnAtom) = .ok (.atom 1)
      rw [hB, ok_bind]
      rfl
    have hcond : nock (f + 2) (.cell s (.cell (.atom 4) (.cell (.atom 4) B)))
        = .ok (.atom 2) := by
      show Except.bind (nock (f + 1) (.cell s (.cell (.atom 4) B))) (fun prod =>
        match prod with
        | Noun.atom a =>
            match Atom.incr a with
            | Except.ok n => Except.ok (Noun.atom n)
            | Except.error e => Except.error e
        | Noun.cell _ _ => Except.error Err.notAnAtom) = .ok (.atom 2)
      rw [h1, ok_bind]
      rfl
    show Except.bind
        (nock (f + 2) (.cell s (.cell (.atom 4) (.cell (.atom 4) B))))
        (fun cond =>
        Except.bind (nock (f + 2) (.cell (.cell (.atom 2) (.atom 3))
          (.cell (.atom 0) cond))) fun a_ =>
        Except.bind (nock (f + 2) (.cell (.cell C D) (.cell (.atom 0) a_)))
          fun f2 =>
        nock (f + 2) (.cell s f2)) = nock (f + 2) (.cell s C)
    rw [hcond, ok_bind,
      show nock (f + 2) (.cell (.cell (.atom 2) (.atom 3))
        (.cell (.atom 0) (.atom 2))) = .ok (.atom 2) from rfl, ok_bind,
      show nock (f + 2) (.cell (.cell C D) (.cell (.atom 0) (.atom 2)))
        = .ok C from rfl, ok_bind]
  · intro f s B C D hB
    have h1 : nock (f + 1) (.cell s (.cell (.atom 4) B)) = .ok (.atom 2) := by
      show Except.bind (nock f (.cell s B)) (fun prod =>
        match prod with
        | Noun.atom a =>
            match Atom.incr a with
            | Except.ok n => Except.ok (Noun.atom n)
            | Except.error e => Except.error e
        | Noun.cell _ _ => Except.error Err.notAnAtom) = .ok (.atom 2)
      rw [hB, ok_bind]
      rfl
    have hcond : nock (f + 2) (.cell s (.cell (.atom 4) (.cell (.atom 4) B)))
        = .ok (.atom 3) := by
      show Except.bind (nock (f + 1) (.cell s (.cell (.atom 4) B))) (fun prod =>
        match prod with
        | Noun.atom a =>
            match Atom.incr a with
            | Except.ok n => Except.ok (Noun.atom n)
            | Except.error e => Except.error e
        | Noun.cell _ _ => Except.error Err.notAnAtom) = .ok (.atom 3)
      rw [h1, ok_bind]
      rfl
    show Except.bind
        (nock (f + 2) (.cell s (.cell (.atom 4) (.cell (.atom 4) B))))
        (fun cond =>
        Except.bind (nock (f + 2) (.cell (.cell (.atom 2) (.atom 3))
          (.cell (.atom 0) cond))) fun a_ =>
        Except.bind (nock (f + 2) (.cell (.cell C D) (.cell (.atom 0) a_)))
          fun f2 =>
        nock (f + 2) (.cell s f2)) = nock (f + 2) (.cell s D)
    rw [hcond, ok_bind,
      show nock (f + 2) (.cell (.cell (.atom 2) (.atom 3))
        (.cell (.atom 0) (.atom 3))) = .ok (.atom 3) from rfl, ok_bind,
      show nock (f + 2) (.cell (.cell C D) (.cell (.atom 0) (.atom 3)))
        = .ok D from rfl, ok_bind]

/-- Witness for C4: the then-branch law applied at subject 5 with a quoted
test of 0 selects the then-formula (1 . 77). -/
theorem C4_branch_semantics_witness :
    nock 4 (.cell (.atom 5) (.cell (.atom 6) (.cell (.cell (.atom 1) (.atom 0))
      (.cell (.cell (.atom 1) (.atom 77)) (.cell (.atom 1) (.atom 88))))))
      = nock 3 (.cell (.atom 5) (.cell (.atom 1) (.atom 77))) :=
  C4_branch_semantics.1 1 (.atom 5) (.cell (.atom 1) (.atom 0))
    (.cell (.atom 1) (.atom 77)) (.cell (.atom 1) (.atom 88)) (by decide)

/-- Inversion for a successful opcode-4 reduction: the operand reduced to an
atom that did not overflow, and the result is its successor. -/
theorem incr_inv (g : Nat) (s B w : Noun)
    (h : nock (g + 1) (.cell s (.cell (.atom 4) B)) = .ok w) :
    ∃ a, nock g (.cell s B) = .ok (.atom a) ∧ 1 + a < 2 ^ 64
      ∧ w = .atom (1 + a) := by
  replace h : Except.bind (nock g (.cell s B)) (fun prod =>
      match prod with
      | Noun.atom a =>
          match Atom.incr a with
          | Except.ok n => Except.ok (Noun.atom n)
          | Except.error e => Except.error e
      | Noun.cell _ _ => Except.error Err.notAnAtom) = .ok w := h
  cases h1 : nock g (.cell s B) with
  | error e => rw [h1, error_bind] at h; cases h
  | ok prod =>
    rw [h1, ok_bind] at h
    cases prod with
    | cell x y =>
      replace h : (Except.error Err.notAnAtom : Except Err Noun) = .ok w := h
      cases h
    | atom a =>
      replace h : (match Atom.incr a with
        | Except.ok n => Except.ok (Noun.atom n)
        | Except.error e => Except.error e) = .ok w := h
      by_cases hlt : 1 + a < 2 ^ 64
      · rw [show Atom.incr a = .ok (1 + a) from by
          show (if 1 + a < 2 ^ 64 then Except.ok (1 + a)
            else Except.error Err.overflow) = Except.ok (1 + a)
          rw [if_pos hlt]] at h
        replace h : Except.ok (Noun.atom (1 + a)) = .ok w := h
        injection h with e
        exact ⟨a, rfl, hlt, e.symm⟩
      · rw [show Atom.incr a = .error .overflow from by
          show (if 1 + a < 2 ^ 64 then Except.ok (1 + a)
            else Except.error Err.overflow) = Except.error Err.overflow
          rw [if_neg hlt]] at h
        replace h : (Except.error Err.overflow : Except Err Noun) = .ok w := h
        cases h

/-- Inversion for the rewritten branch condition: a successful reduction of
(4 . (4 . B)) used two fuel steps, reduced B to an atom, and incremented it
twice without overflowing. -/
theorem incr2_inv (g : Nat) (s B w : Noun)
    (h : nock g (.cell s (.cell (.atom 4) (.cell (.atom 4) B))) = .ok w) :
    ∃ g' a, g = g' + 2 ∧ nock g' (.cell s B) = .ok (.atom a)
      ∧ w = .atom (1 + (1 + a)) ∧ 1 + a < 2 ^ 64
      ∧ 1 + (1 + a) < 2 ^ 64 := by
  cases g with
  | zero => cases h
  | succ g1 =>
    obtain ⟨a1, h1, hlt1, rfl⟩ := incr_inv g1 s (.cell (.atom 4) B) w h
    cases g1 with
    | zero => cases h1
    | succ g2 =>
      obtain ⟨a0, h0, hlt0, he⟩ := incr_inv g2 s B (.atom a1) h1
      injection he with e
      subst e
      exact ⟨g2, a0, rfl, h0, rfl, hlt0, hlt1⟩

/-- Claim C10: if the branch test reduces to a cell or to an atom other than
0 or 1, opcode 6 never returns a result noun, at any fuel: the rewrite maps a
test value a to path a + 2, and every such path of value 4 or more fails its
second descent into the two-leaf tree (2 . 3). -/
theorem C10_branch_invalid_condition (f : Nat) (s B C D v : Noun)
    (hB : nock f (.cell s B) = .ok v)
    (hv : (∃ x y, v = .cell x y)
      ∨ (∃ k, v = .atom k ∧ 2 ≤ k ∧ k < 2 ^ 64)) :
    ∀ g r, nock g (.cell s (.cell (.atom 6) (.cell B (.cell C D)))) ≠ .ok r := by
  intro g r hok
  cases g with
  | zero => cases hok
  | succ g1 =>
    replace hok : Except.bind
        (nock g1 (.cell s (.cell (.atom 4) (.cell (.atom 4) B))))
        (fun cond =>
        Except.bind (nock g1 (.cell (.cell (.atom 2) (.atom 3))
          (.cell (.atom 0) cond))) fun a_ =>
        Except.bind (nock g1 (.cell (.cell C D) (.cell (.atom 0) a_)))
          fun f2 =>
        nock g1 (.cell s f2)) = .ok r := hok
    cases h1 : nock g1 (.cell s (.cell (.atom 4) (.cell (.atom 4) B))) with
    | error e => rw [h1, error_bind] at hok; cases hok
    | ok cond =>
      rw [h1, ok_bind] at hok
      obtain ⟨g2, a0, rfl, h0, rfl, hlt0, hlt1⟩ := incr2_inv g1 s B cond h1
      have hva : v = .atom a0 := nock_det f g2 (.cell s B) v (.atom a0) hB h0
      have ha0 : 2 ≤ a0 := by
        rcases hv with ⟨x, y, hxy⟩ | ⟨k, hk, hk2, hk64⟩
        · rw [hva] at hxy
          cases hxy
        · rw [hva] at hk
          injection hk with e
          omega
      have h2fail : nock (g2 + 2) (.cell (.cell (.atom 2) (.atom 3))
          (.cell (.atom 0) (.atom (1 + (1 + a0))))) = .error .notACell := by
        show addr (.cell (.atom 2) (.atom 3)) (.atom (1 + (1 + a0)))
          = .error .notACell
        show (if 1 + (1 + a0) = 0 then Except.error Err.invalidAddress
          else aux (log2via 64 (1 + (1 + a0))) (1 + (1 + a0))
            (.cell (.atom 2) (.atom 3))) = Except.error Err.notACell
        rw [if_neg (by omega)]
        exact aux_two_leaves_fail _ _ 2 3 (log2via_ge_two _ (by omega))
      rw [h2fail, error_bind] at hok
      cases hok

/-- Witness for C10: a quoted test of 5 makes the branch fail at fuel 7. -/
theorem C10_branch_invalid_condition_witness :
    nock 7 (.cell (.atom 0) (.cell (.atom 6) (.cell (.cell (.atom 1) (.atom 5))
      (.cell (.cell (.atom 1) (.atom 99)) (.cell (.atom 1) (.atom 42))))))
      ≠ .ok (.atom 99) :=
  C10_branch_invalid_condition 1 (.atom 0) (.cell (.atom 1) (.atom 5))
    (.cell (.atom 1) (.atom 99)) (.cell (.atom 1) (.atom 42)) (.atom 5)
    (by decide) (Or.inr ⟨5, rfl, by norm_num, by norm_num⟩) 7 (.atom 99)
